import Mathlib

/-!
Verification of the ScheduleHQ utility scripts.

Part 1 embeds the PNG-to-ICO container writer
(`create_ico_from_pngs.py`): bytes are naturals below 256, little-endian
packing mirrors Python's `struct.pack`, and the writer produces the full
output byte sequence (header, directory records, concatenated payloads).

Part 2 embeds the CSV uploader loop (`scripts/shift_manager_uploader.py`):
each watched file carries the outcome its upload and delete collaborators
would report, and the loop is modelled both as a counter fold (mirroring
`process_files`) and as an event trace for the temporal property.
-/

namespace ScheduleHQ

/-- Little-endian packing of `v` into `w` bytes, as Python's
`struct.pack` does for the fixed-width fields `B`, `H`, `I`.  Each byte is
`v`'s next base-256 digit. -/
def packLE : Nat → Nat → List Nat
  | 0, _ => []
  | w + 1, v => v % 256 :: packLE w (v / 256)

/-- Little-endian decoding of a byte list (inverse of `packLE` on
in-range values). -/
def fromLE : List Nat → Nat
  | [] => 0
  | b :: bs => b + 256 * fromLE bs

/-- Read `w` bytes little-endian starting at position `pos` of `out`. -/
def readLE (out : List Nat) (pos w : Nat) : Nat :=
  fromLE ((out.drop pos).take w)

/-- One image handed to the writer: its square pixel dimension (`size` in
the source's `images_data` dictionaries) and its encoded payload bytes
(`data`). -/
structure ImageEntry where
  size : Nat
  data : List Nat
deriving DecidableEq

/-- Sum of the encoded payload lengths of a list of entries. -/
def sumLens (es : List ImageEntry) : Nat :=
  (es.map (fun e => e.data.length)).sum

/-- One 16-byte ICO directory record, exactly the source's
`struct.pack('<BBBBHHII', width, height, 0, 0, 1, 32, data_size, offset)`
with `width = height = size if size < 256 else 0`. -/
def dirEntry (e : ImageEntry) (offset : Nat) : List Nat :=
  packLE 1 (if e.size < 256 then e.size else 0) ++
  packLE 1 (if e.size < 256 then e.size else 0) ++
  packLE 1 0 ++
  packLE 1 0 ++
  packLE 2 1 ++
  packLE 2 32 ++
  packLE 4 e.data.length ++
  packLE 4 offset

/-- The directory region: one record per entry, the offset advancing by
each entry's payload length (the loop's `offset += data_size`). -/
def writeDir : List ImageEntry → Nat → List Nat
  | [], _ => []
  | e :: rest, offset => dirEntry e offset ++ writeDir rest (offset + e.data.length)

/-- The full byte sequence the writer emits for a non-empty entry list:
the 6-byte header `struct.pack('<HHH', 0, 1, count)`, the directory
starting the running offset at `6 + 16 * count`, then the concatenated
payloads. -/
def icoBytes (es : List ImageEntry) : List Nat :=
  packLE 2 0 ++ packLE 2 1 ++ packLE 2 es.length ++
    writeDir es (6 + 16 * es.length) ++ (es.map ImageEntry.data).flatten

/-- The failure the writer signals on empty input (the source's
`if not images_data: print("Error: ..."); return` path, named
`FormatError` in the spec). -/
inductive FormatError where
  | noImages
deriving DecidableEq

/-- The writer `create_ico_from_pngs`: on empty input it fails before
opening the output and writes nothing; otherwise it emits the complete
container bytes. -/
def create_ico_from_pngs (es : List ImageEntry) : Except FormatError (List Nat) :=
  if es.isEmpty then Except.error FormatError.noImages else Except.ok (icoBytes es)

/-- The payload offsets the writer assigns, in entry order: the running
sum of prior payload lengths starting from `start`. -/
def offsetsFrom : List ImageEntry → Nat → List Nat
  | [], _ => []
  | e :: rest, off => off :: offsetsFrom rest (off + e.data.length)

/-- The payload offsets of a container: running sums starting at the
directory base offset `6 + 16 * count`. -/
def payloadOffsets (es : List ImageEntry) : List Nat :=
  offsetsFrom es (6 + 16 * es.length)

/-- Modelled from the spec: the stored-dimension convention of the format
(§6: storedWidth 1 byte, 0 means 256), read back to the logical
dimension.  The repository has no parser; this decodes the convention the
spec states. -/
def logicalDim (b : Nat) : Nat :=
  if b = 0 then 256 else b

/-- Modelled from the spec: re-parsing the container's header entry count
(bytes 4–5, little-endian), per §6 of the format description. -/
def parseEntryCount (out : List Nat) : Nat :=
  readLE out 4 2

/-- Modelled from the spec: re-parsing record `i`'s payloadByteLength
field (4 bytes at offset 8 of the 16-byte record), per §6. -/
def parseLen (out : List Nat) (i : Nat) : Nat :=
  readLE out (6 + 16 * i + 8) 4

/-- Modelled from the spec: re-parsing record `i`'s payloadOffset field
(4 bytes at offset 12 of the 16-byte record), per §6. -/
def parseOffset (out : List Nat) (i : Nat) : Nat :=
  readLE out (6 + 16 * i + 12) 4

/-- Modelled from the spec: the byte region record `i` points to — the
`payloadByteLength` bytes starting at `payloadOffset`. -/
def parsePayload (out : List Nat) (i : Nat) : List Nat :=
  (out.drop (parseOffset out i)).take (parseLen out i)

theorem length_packLE (w v : Nat) : (packLE w v).length = w := by
  induction w generalizing v with
  | zero => rfl
  | succ w ih => simp [packLE, ih]

theorem fromLE_packLE (w v : Nat) : fromLE (packLE w v) = v % 2 ^ (8 * w) := by
  induction w generalizing v with
  | zero => simp [packLE, fromLE, Nat.mod_one]
  | succ w ih =>
      have h : (2 : Nat) ^ (8 * (w + 1)) = 256 * 2 ^ (8 * w) := by
        rw [show 8 * (w + 1) = 8 + 8 * w by ring, pow_add]
        norm_num
      rw [packLE, fromLE, ih, h, Nat.mod_mul]

theorem fromLE_packLE_of_lt (w v : Nat) (h : v < 2 ^ (8 * w)) :
    fromLE (packLE w v) = v := by
  rw [fromLE_packLE, Nat.mod_eq_of_lt h]

theorem length_dirEntry (e : ImageEntry) (off : Nat) : (dirEntry e off).length = 16 := by
  simp [dirEntry, length_packLE]

theorem length_writeDir (es : List ImageEntry) (off : Nat) :
    (writeDir es off).length = 16 * es.length := by
  induction es generalizing off with
  | nil => simp [writeDir]
  | cons e rest ih =>
      simp [writeDir, length_dirEntry, ih]
      ring

theorem sumLens_cons (e : ImageEntry) (es : List ImageEntry) :
    sumLens (e :: es) = e.data.length + sumLens es := by
  simp [sumLens]

theorem dirEntry_eq (e : ImageEntry) (off : Nat) :
    dirEntry e off = (if e.size < 256 then e.size else 0) % 256 ::
      (if e.size < 256 then e.size else 0) % 256 :: 0 :: 0 :: 1 :: 0 :: 32 :: 0 ::
      (packLE 4 e.data.length ++ packLE 4 off) := rfl

theorem dirEntry_drop_twelve (e : ImageEntry) (off : Nat) :
    (dirEntry e off).drop 12 = packLE 4 off := rfl

theorem dirEntry_drop_eight (e : ImageEntry) (off : Nat) :
    (dirEntry e off).drop 8 = packLE 4 e.data.length ++ packLE 4 off := rfl

theorem writeDir_drop (es : List ImageEntry) (off i : Nat) (hi : i < es.length) :
    (writeDir es off).drop (16 * i) =
      dirEntry es[i] (off + sumLens (es.take i)) ++
        writeDir (es.drop (i + 1)) (off + sumLens (es.take (i + 1))) := by
  induction es generalizing off i with
  | nil => simp at hi
  | cons e rest ih =>
      cases i with
      | zero => simp [writeDir, sumLens]
      | succ i =>
          have hi' : i < rest.length := by simpa using hi
          rw [writeDir, show 16 * (i + 1) = 16 + 16 * i by ring, ← List.drop_drop,
            List.drop_left' (length_dirEntry e off), ih (off + e.data.length) i hi',
            List.getElem_cons_succ, List.take_succ_cons, List.take_succ_cons,
            List.drop_succ_cons, sumLens_cons, sumLens_cons, Nat.add_assoc, Nat.add_assoc]

theorem icoBytes_drop_six (es : List ImageEntry) :
    (icoBytes es).drop 6 =
      writeDir es (6 + 16 * es.length) ++ (es.map ImageEntry.data).flatten := rfl

theorem icoBytes_drop_record (es : List ImageEntry) (i : Nat) (hi : i < es.length) :
    ∃ tail, (icoBytes es).drop (6 + 16 * i) =
      dirEntry es[i] (6 + 16 * es.length + sumLens (es.take i)) ++ tail := by
  refine ⟨writeDir (es.drop (i + 1)) (6 + 16 * es.length + sumLens (es.take (i + 1))) ++
    (es.map ImageEntry.data).flatten, ?_⟩
  rw [← List.drop_drop, icoBytes_drop_six,
    List.drop_append_of_le_length (by rw [length_writeDir]; omega),
    writeDir_drop es (6 + 16 * es.length) i hi, List.append_assoc]

theorem payload_extract (es : List ImageEntry) (i : Nat) (hi : i < es.length) :
    (((es.map ImageEntry.data).flatten).drop (sumLens (es.take i))).take
        es[i].data.length = es[i].data := by
  induction es generalizing i with
  | nil => simp at hi
  | cons e rest ih =>
      cases i with
      | zero =>
          simp [sumLens, List.take_left e.data ((rest.map ImageEntry.data).flatten)]
      | succ i =>
          have hi' : i < rest.length := by simp at hi; exact hi
          rw [List.getElem_cons_succ, List.take_succ_cons, sumLens_cons, List.map_cons,
            List.flatten_cons, List.drop_append, ih i hi']

theorem icoBytes_drop_payload (es : List ImageEntry) (s : Nat) :
    (icoBytes es).drop (6 + 16 * es.length + s) =
      ((es.map ImageEntry.data).flatten).drop s := by
  rw [Nat.add_assoc, ← List.drop_drop, icoBytes_drop_six,
    show 16 * es.length + s = (writeDir es (6 + 16 * es.length)).length + s by
      rw [length_writeDir], List.drop_append]

theorem sumLens_append (a b : List ImageEntry) :
    sumLens (a ++ b) = sumLens a + sumLens b := by
  simp [sumLens]

theorem sumLens_take_le (es : List ImageEntry) (i : Nat) :
    sumLens (es.take i) ≤ sumLens es := by
  conv_rhs => rw [← List.take_append_drop i es]
  rw [sumLens_append]
  exact Nat.le_add_right _ _

theorem len_le_sumLens (es : List ImageEntry) (i : Nat) (hi : i < es.length) :
    es[i].data.length ≤ sumLens es := by
  show es[i].data.length ≤ (es.map fun e => e.data.length).sum
  exact List.single_le_sum (by simp) _
    (List.mem_map_of_mem _ (List.getElem_mem hi))

theorem dirEntry_drop_one (e : ImageEntry) (off : Nat) :
    (dirEntry e off).drop 1 = (if e.size < 256 then e.size else 0) % 256 ::
      0 :: 0 :: 1 :: 0 :: 32 :: 0 ::
      (packLE 4 e.data.length ++ packLE 4 off) := rfl

theorem dirEntry_drop_two (e : ImageEntry) (off : Nat) :
    (dirEntry e off).drop 2 = 0 :: 0 :: 1 :: 0 :: 32 :: 0 ::
      (packLE 4 e.data.length ++ packLE 4 off) := rfl

theorem dirEntry_drop_three (e : ImageEntry) (off : Nat) :
    (dirEntry e off).drop 3 = 0 :: 1 :: 0 :: 32 :: 0 ::
      (packLE 4 e.data.length ++ packLE 4 off) := rfl

theorem dirEntry_drop_four (e : ImageEntry) (off : Nat) :
    (dirEntry e off).drop 4 = 1 :: 0 :: 32 :: 0 ::
      (packLE 4 e.data.length ++ packLE 4 off) := rfl

theorem dirEntry_drop_six (e : ImageEntry) (off : Nat) :
    (dirEntry e off).drop 6 = 32 :: 0 ::
      (packLE 4 e.data.length ++ packLE 4 off) := rfl

theorem readLE_offset_field (es : List ImageEntry) (i : Nat) (hi : i < es.length)
    (hfit : 6 + 16 * es.length + sumLens (es.take i) < 2 ^ 32) :
    readLE (icoBytes es) (6 + 16 * i + 12) 4 =
      6 + 16 * es.length + sumLens (es.take i) := by
  obtain ⟨tail, htail⟩ := icoBytes_drop_record es i hi
  rw [readLE, ← List.drop_drop, htail,
    List.drop_append_of_le_length (by rw [length_dirEntry]; omega),
    dirEntry_drop_twelve, List.take_left' (length_packLE 4 _)]
  exact fromLE_packLE_of_lt 4 _ hfit

theorem readLE_len_field (es : List ImageEntry) (i : Nat) (hi : i < es.length)
    (hlen : es[i].data.length < 2 ^ 32) :
    readLE (icoBytes es) (6 + 16 * i + 8) 4 = es[i].data.length := by
  obtain ⟨tail, htail⟩ := icoBytes_drop_record es i hi
  rw [readLE, ← List.drop_drop, htail,
    List.drop_append_of_le_length (by rw [length_dirEntry]; omega),
    dirEntry_drop_eight, List.append_assoc, List.take_left' (length_packLE 4 _)]
  exact fromLE_packLE_of_lt 4 _ hlen

theorem len_field_bytes (es : List ImageEntry) (i : Nat) (hi : i < es.length) :
    ((icoBytes es).drop (6 + 16 * i + 8)).take 4 = packLE 4 es[i].data.length := by
  obtain ⟨tail, htail⟩ := icoBytes_drop_record es i hi
  rw [← List.drop_drop, htail,
    List.drop_append_of_le_length (by rw [length_dirEntry]; omega),
    dirEntry_drop_eight, List.append_assoc, List.take_left' (length_packLE 4 _)]

theorem offset_field_bytes (es : List ImageEntry) (i : Nat) (hi : i < es.length) :
    ((icoBytes es).drop (6 + 16 * i + 12)).take 4 =
      packLE 4 (6 + 16 * es.length + sumLens (es.take i)) := by
  obtain ⟨tail, htail⟩ := icoBytes_drop_record es i hi
  rw [← List.drop_drop, htail,
    List.drop_append_of_le_length (by rw [length_dirEntry]; omega),
    dirEntry_drop_twelve, List.take_left' (length_packLE 4 _)]

theorem create_ok (es : List ImageEntry) (hne : es ≠ []) :
    create_ico_from_pngs es = Except.ok (icoBytes es) := by
  rw [create_ico_from_pngs, if_neg]
  simpa using hne

/-- The entry list of the spec's concrete scenario: dimensions 256, 48,
16 with payload lengths 1000, 400, 150 bytes. -/
def c6entries : List ImageEntry :=
  [⟨256, List.replicate 1000 0⟩, ⟨48, List.replicate 400 0⟩,
    ⟨16, List.replicate 150 0⟩]

theorem entries_ext : ∀ (es fs : List ImageEntry),
    es.map ImageEntry.size = fs.map ImageEntry.size →
    es.map ImageEntry.data = fs.map ImageEntry.data → es = fs
  | [], [], _, _ => rfl
  | [], _ :: _, h, _ => by simp at h
  | _ :: _, [], h, _ => by simp at h
  | e :: es, f :: fs, h1, h2 => by
      simp only [List.map_cons, List.cons.injEq] at h1 h2
      have he : e = f := by
        cases e
        cases f
        simp_all
      rw [he, entries_ext es fs h1.2 h2.2]

/-- C1: for a non-empty entry list the writer succeeds, the `i`-th
directory record's payloadOffset field holds `6 + 16 × count` plus the
sum of the preceding entries' encoded lengths (so the first entry gets
exactly `6 + 16 × count`), and the output bytes at that offset are
exactly that entry's payload. -/
theorem offsets_point_to_payloads (es : List ImageEntry) (i : Nat)
    (hne : es ≠ []) (hi : i < es.length)
    (hfit : 6 + 16 * es.length + sumLens (es.take i) < 2 ^ 32) :
    create_ico_from_pngs es = Except.ok (icoBytes es) ∧
    readLE (icoBytes es) (6 + 16 * i + 12) 4 =
      6 + 16 * es.length + sumLens (es.take i) ∧
    ((icoBytes es).drop (6 + 16 * es.length + sumLens (es.take i))).take
      es[i].data.length = es[i].data := by
  refine ⟨create_ok es hne, readLE_offset_field es i hi hfit, ?_⟩
  rw [icoBytes_drop_payload, payload_extract es i hi]

theorem offsets_point_to_payloads_witness :
    create_ico_from_pngs [(⟨16, [7, 7, 7]⟩ : ImageEntry)] =
      Except.ok (icoBytes [⟨16, [7, 7, 7]⟩]) ∧
    readLE (icoBytes [(⟨16, [7, 7, 7]⟩ : ImageEntry)]) 18 4 = 22 ∧
    ((icoBytes [(⟨16, [7, 7, 7]⟩ : ImageEntry)]).drop 22).take 3 = [7, 7, 7] := by
  have h := offsets_point_to_payloads [⟨16, [7, 7, 7]⟩] 0 (by decide) (by decide) (by decide)
  simpa [sumLens] using h

/-- C2: write/parse round-trip — for a non-empty list of entries whose
container fits the 16-bit count and 32-bit offset fields, the writer
succeeds and re-parsing its output recovers the entry count, and for
every entry the parsed payloadByteLength, payloadOffset and the byte
region they delimit are the original length, the running-sum offset and
the original payload bytes. -/
theorem write_parse_roundtrip (es : List ImageEntry) (hne : es ≠ [])
    (hcount : es.length < 2 ^ 16)
    (hfit : 6 + 16 * es.length + sumLens es < 2 ^ 32) :
    ∃ out, create_ico_from_pngs es = Except.ok out ∧
      parseEntryCount out = es.length ∧
      ∀ i (hi : i < es.length),
        parseLen out i = es[i].data.length ∧
        parseOffset out i = 6 + 16 * es.length + sumLens (es.take i) ∧
        parsePayload out i = es[i].data := by
  refine ⟨icoBytes es, create_ok es hne, ?_, ?_⟩
  · show fromLE (packLE 2 es.length) = es.length
    exact fromLE_packLE_of_lt 2 _ hcount
  · intro i hi
    have hofit : 6 + 16 * es.length + sumLens (es.take i) < 2 ^ 32 :=
      lt_of_le_of_lt (by have := sumLens_take_le es i; omega) hfit
    have hlen : parseLen (icoBytes es) i = es[i].data.length :=
      readLE_len_field es i hi
        (lt_of_le_of_lt (by have := len_le_sumLens es i hi; omega) hfit)
    have hoff : parseOffset (icoBytes es) i =
        6 + 16 * es.length + sumLens (es.take i) :=
      readLE_offset_field es i hi hofit
    refine ⟨hlen, hoff, ?_⟩
    rw [parsePayload, hlen, hoff, icoBytes_drop_payload, payload_extract es i hi]

theorem write_parse_roundtrip_witness :
    create_ico_from_pngs [(⟨16, [7, 7, 7]⟩ : ImageEntry)] =
      Except.ok (icoBytes [⟨16, [7, 7, 7]⟩]) ∧
    parseEntryCount (icoBytes [(⟨16, [7, 7, 7]⟩ : ImageEntry)]) = 1 ∧
    parseLen (icoBytes [(⟨16, [7, 7, 7]⟩ : ImageEntry)]) 0 = 3 ∧
    parseOffset (icoBytes [(⟨16, [7, 7, 7]⟩ : ImageEntry)]) 0 = 22 ∧
    parsePayload (icoBytes [(⟨16, [7, 7, 7]⟩ : ImageEntry)]) 0 = [7, 7, 7] := by
  obtain ⟨out, h1, h2, h3⟩ :=
    write_parse_roundtrip [⟨16, [7, 7, 7]⟩] (by decide) (by decide) (by decide)
  have hout : out = icoBytes [(⟨16, [7, 7, 7]⟩ : ImageEntry)] := by
    rw [create_ok _ (by decide)] at h1
    exact (Except.ok.injEq _ _ ▸ h1 : _) ▸ rfl
  subst hout
  have h4 := h3 0 (by decide)
  exact ⟨h1, by simpa using h2, by simpa using h4.1,
    by simpa [sumLens] using h4.2.1, by simpa using h4.2.2⟩

/-- C3: for a non-empty input the writer succeeds, the output starts with
the 6-byte little-endian header (reserved=0, type=1, entryCount), and
each 16-byte directory record carries the fixed fields
colorPaletteCount=0, reserved=0, colorPlanes=1, bitsPerPixel=32, with
payloadByteLength and payloadOffset each a 4-byte little-endian field. -/
theorem header_and_fixed_fields (es : List ImageEntry) (hne : es ≠ [])
    (hcount : es.length < 2 ^ 16) :
    create_ico_from_pngs es = Except.ok (icoBytes es) ∧
    (icoBytes es).take 6 = packLE 2 0 ++ packLE 2 1 ++ packLE 2 es.length ∧
    readLE (icoBytes es) 0 2 = 0 ∧
    readLE (icoBytes es) 2 2 = 1 ∧
    readLE (icoBytes es) 4 2 = es.length ∧
    ∀ i (hi : i < es.length),
      readLE (icoBytes es) (6 + 16 * i + 2) 1 = 0 ∧
      readLE (icoBytes es) (6 + 16 * i + 3) 1 = 0 ∧
      readLE (icoBytes es) (6 + 16 * i + 4) 2 = 1 ∧
      readLE (icoBytes es) (6 + 16 * i + 6) 2 = 32 ∧
      ((icoBytes es).drop (6 + 16 * i + 8)).take 4 = packLE 4 es[i].data.length ∧
      ((icoBytes es).drop (6 + 16 * i + 12)).take 4 =
        packLE 4 (6 + 16 * es.length + sumLens (es.take i)) := by
  refine ⟨create_ok es hne, rfl, rfl, rfl,
    fromLE_packLE_of_lt 2 _ hcount, ?_⟩
  intro i hi
  obtain ⟨tail, htail⟩ := icoBytes_drop_record es i hi
  have hdrop : ∀ k : Nat, k ≤ 16 → (icoBytes es).drop (6 + 16 * i + k) =
      (dirEntry es[i] (6 + 16 * es.length + sumLens (es.take i))).drop k ++ tail := by
    intro k hk
    rw [← List.drop_drop, htail,
      List.drop_append_of_le_length (by rw [length_dirEntry]; omega)]
  refine ⟨?_, ?_, ?_, ?_, len_field_bytes es i hi, offset_field_bytes es i hi⟩
  · rw [readLE, hdrop 2 (by omega), dirEntry_drop_two]
    simp [fromLE]
  · rw [readLE, hdrop 3 (by omega), dirEntry_drop_three]
    simp [fromLE]
  · rw [readLE, hdrop 4 (by omega), dirEntry_drop_four]
    simp [fromLE]
  · rw [readLE, hdrop 6 (by omega), dirEntry_drop_six]
    simp [fromLE]

theorem header_and_fixed_fields_witness :
    create_ico_from_pngs [(⟨16, [7, 7, 7]⟩ : ImageEntry)] =
      Except.ok (icoBytes [⟨16, [7, 7, 7]⟩]) ∧
    (icoBytes [(⟨16, [7, 7, 7]⟩ : ImageEntry)]).take 6 =
      packLE 2 0 ++ packLE 2 1 ++ packLE 2 1 ∧
    readLE (icoBytes [(⟨16, [7, 7, 7]⟩ : ImageEntry)]) 0 2 = 0 ∧
    readLE (icoBytes [(⟨16, [7, 7, 7]⟩ : ImageEntry)]) 2 2 = 1 ∧
    readLE (icoBytes [(⟨16, [7, 7, 7]⟩ : ImageEntry)]) 4 2 = 1 ∧
    readLE (icoBytes [(⟨16, [7, 7, 7]⟩ : ImageEntry)]) 8 1 = 0 ∧
    readLE (icoBytes [(⟨16, [7, 7, 7]⟩ : ImageEntry)]) 10 2 = 1 ∧
    readLE (icoBytes [(⟨16, [7, 7, 7]⟩ : ImageEntry)]) 12 2 = 32 := by
  have h := header_and_fixed_fields [⟨16, [7, 7, 7]⟩] (by decide) (by decide)
  obtain ⟨h1, h2, h3, h4, h5, h6⟩ := h
  have h7 := h6 0 (by decide)
  exact ⟨h1, h2, h3, h4, by simpa using h5, by simpa using h7.1,
    by simpa using h7.2.2.1, by simpa using h7.2.2.2.1⟩

/-- C4: the stored width and height bytes of a record equal the entry's
dimension for dimensions 1..255 and equal 0 for dimension 256; reading
the 0 back through the format's convention yields logical dimension 256,
and dimensions 1..255 round-trip unchanged. -/
theorem stored_dimension_encoding (es : List ImageEntry) (i : Nat)
    (hi : i < es.length) :
    (1 ≤ es[i].size → es[i].size ≤ 255 →
      readLE (icoBytes es) (6 + 16 * i) 1 = es[i].size ∧
      readLE (icoBytes es) (6 + 16 * i + 1) 1 = es[i].size ∧
      logicalDim (readLE (icoBytes es) (6 + 16 * i) 1) = es[i].size) ∧
    (es[i].size = 256 →
      readLE (icoBytes es) (6 + 16 * i) 1 = 0 ∧
      readLE (icoBytes es) (6 + 16 * i + 1) 1 = 0 ∧
      logicalDim (readLE (icoBytes es) (6 + 16 * i) 1) = 256) := by
  obtain ⟨tail, htail⟩ := icoBytes_drop_record es i hi
  have h0 : readLE (icoBytes es) (6 + 16 * i) 1 =
      (if es[i].size < 256 then es[i].size else 0) % 256 := by
    rw [readLE, htail, dirEntry_eq]
    simp [fromLE]
  have h1 : readLE (icoBytes es) (6 + 16 * i + 1) 1 =
      (if es[i].size < 256 then es[i].size else 0) % 256 := by
    rw [readLE, ← List.drop_drop, htail,
      List.drop_append_of_le_length (by rw [length_dirEntry]; omega),
      dirEntry_drop_one]
    simp [fromLE]
  constructor
  · intro hlo hhi
    have hv : (if es[i].size < 256 then es[i].size else 0) % 256 = es[i].size := by
      rw [if_pos (by omega), Nat.mod_eq_of_lt (by omega)]
    rw [h0, h1, hv]
    exact ⟨rfl, rfl, by rw [logicalDim, if_neg (by omega)]⟩
  · intro h256
    have hv : (if es[i].size < 256 then es[i].size else 0) % 256 = 0 := by
      rw [if_neg (by omega)]
    rw [h0, h1, hv]
    exact ⟨rfl, rfl, rfl⟩

theorem stored_dimension_encoding_witness :
    (readLE (icoBytes [(⟨256, [9]⟩ : ImageEntry), ⟨48, [8]⟩]) 6 1 = 0 ∧
      logicalDim (readLE (icoBytes [(⟨256, [9]⟩ : ImageEntry), ⟨48, [8]⟩]) 6 1) = 256) ∧
    (readLE (icoBytes [(⟨256, [9]⟩ : ImageEntry), ⟨48, [8]⟩]) 22 1 = 48 ∧
      logicalDim (readLE (icoBytes [(⟨256, [9]⟩ : ImageEntry), ⟨48, [8]⟩]) 22 1) = 48) := by
  have ha := stored_dimension_encoding [⟨256, [9]⟩, ⟨48, [8]⟩] 0 (by decide)
  have hb := stored_dimension_encoding [⟨256, [9]⟩, ⟨48, [8]⟩] 1 (by decide)
  have ha' := ha.2 (by decide)
  have hb' := hb.1 (by decide) (by decide)
  exact ⟨⟨by simpa using ha'.1, by simpa using ha'.2.2⟩,
    ⟨by simpa using hb'.1, by simpa using hb'.2.2⟩⟩

/-- C5: on an empty entry list the writer fails with `FormatError` and
produces no output bytes at all. -/
theorem empty_input_fails :
    create_ico_from_pngs [] = Except.error FormatError.noImages ∧
    ∀ out : List Nat, create_ico_from_pngs [] ≠ Except.ok out := by
  refine ⟨rfl, fun out h => ?_⟩
  simp [create_ico_from_pngs] at h

set_option maxRecDepth 40000 in
/-- C6: the spec's concrete scenario — three entries of dimensions
256, 48, 16 with payload lengths 1000, 400, 150 get directory base
offset 54 and payload offsets 54, 1054, 1454, which is also what the
three records' payloadOffset fields decode to. -/
theorem concrete_scenario_offsets :
    6 + 16 * (c6entries.length) = 54 ∧
    payloadOffsets c6entries = [54, 1054, 1454] ∧
    readLE (icoBytes c6entries) 18 4 = 54 ∧
    readLE (icoBytes c6entries) 34 4 = 1054 ∧
    readLE (icoBytes c6entries) 50 4 = 1454 := by
  refine ⟨rfl, rfl, ?_, ?_, ?_⟩ <;> decide

/-- C7: determinism — two runs of the writer on entry lists that agree
dimension-for-dimension and byte-for-byte produce identical output. -/
theorem writer_deterministic (es fs : List ImageEntry)
    (hsize : es.map ImageEntry.size = fs.map ImageEntry.size)
    (hdata : es.map ImageEntry.data = fs.map ImageEntry.data) :
    create_ico_from_pngs es = create_ico_from_pngs fs := by
  rw [entries_ext es fs hsize hdata]

theorem writer_deterministic_witness :
    create_ico_from_pngs [(⟨48, [5, 6]⟩ : ImageEntry)] =
      create_ico_from_pngs [(⟨48, [5, 6]⟩ : ImageEntry)] :=
  writer_deterministic [⟨48, [5, 6]⟩] [⟨48, [5, 6]⟩] (by decide) (by decide)

example : icoBytes [⟨16, [7, 7, 7]⟩] =
    [0, 0, 1, 0, 1, 0,
     16, 16, 0, 0, 1, 0, 32, 0, 3, 0, 0, 0, 22, 0, 0, 0,
     7, 7, 7] := by decide

example : payloadOffsets [⟨256, [1, 1]⟩, ⟨48, [2]⟩] = [38, 40] := by decide

/-- One CSV file found in the watch folder, together with the outcomes
its collaborators report for this run: `uploadOk` is what `upload_file`
returns for it and `deleteOk` what `delete_local_file` returns if
called.  `name` identifies the file. -/
structure WatchedFile where
  name : Nat
  uploadOk : Bool
  deleteOk : Bool
deriving DecidableEq

/-- The observable outcome of one `process_files` run: the two summary
counters and the names of the files still on disk afterwards. -/
structure Summary where
  uploaded : Nat
  failed : Nat
  remaining : List Nat
deriving DecidableEq

/-- The `for csv_file in csv_files` loop of `process_files`: on upload
success the local file is deleted and `uploaded` incremented; on delete
failure the file stays but `uploaded` is still incremented; on upload
failure `failed` is incremented and the file stays. -/
def processLoop : List WatchedFile → Summary → Summary
  | [], s => s
  | f :: rest, s =>
    if f.uploadOk then
      if f.deleteOk then
        processLoop rest ⟨s.uploaded + 1, s.failed, s.remaining⟩
      else
        processLoop rest ⟨s.uploaded + 1, s.failed, s.remaining ++ [f.name]⟩
    else
      processLoop rest ⟨s.uploaded, s.failed + 1, s.remaining ++ [f.name]⟩

/-- The uploader's `process_files`, started with both counters at zero
and every file still on disk. -/
def process_files (files : List WatchedFile) : Summary :=
  processLoop files ⟨0, 0, []⟩

/-- The observable collaborator calls and outcomes of one run, indexed
by the file's position in the scanned folder list. -/
inductive UploadEvent where
  | uploadCall (i : Nat)
  | uploadSuccess (i : Nat)
  | uploadFailure (i : Nat)
  | deleteCall (i : Nat)
  | deleteSuccess (i : Nat)
  | deleteFailure (i : Nat)
deriving DecidableEq

/-- Event trace of the loop from position `s` on: each file's upload is
called; only on its success is `delete_local_file` called for that same
file. -/
def runTraceFrom : List WatchedFile → Nat → List UploadEvent
  | [], _ => []
  | f :: rest, i =>
    (if f.uploadOk then
      UploadEvent.uploadCall i :: UploadEvent.uploadSuccess i ::
        UploadEvent.deleteCall i ::
          (if f.deleteOk then [UploadEvent.deleteSuccess i]
           else [UploadEvent.deleteFailure i])
     else [UploadEvent.uploadCall i, UploadEvent.uploadFailure i]) ++
      runTraceFrom rest (i + 1)

/-- Event trace of a whole `process_files` run. -/
def runTrace (files : List WatchedFile) : List UploadEvent :=
  runTraceFrom files 0

theorem processLoop_uploaded (files : List WatchedFile) (s : Summary) :
    (processLoop files s).uploaded =
      s.uploaded + files.countP (fun f => f.uploadOk) := by
  induction files generalizing s with
  | nil => simp [processLoop]
  | cons f rest ih =>
      rw [processLoop]
      cases hu : f.uploadOk
      · simp [ih, List.countP_cons, hu]
      · cases hd : f.deleteOk <;> simp [ih, List.countP_cons, hu] <;> omega

theorem processLoop_failed (files : List WatchedFile) (s : Summary) :
    (processLoop files s).failed =
      s.failed + files.countP (fun f => !f.uploadOk) := by
  induction files generalizing s with
  | nil => simp [processLoop]
  | cons f rest ih =>
      rw [processLoop]
      cases hu : f.uploadOk
      · simp [ih, List.countP_cons, hu]
        omega
      · cases hd : f.deleteOk <;> simp [ih, List.countP_cons, hu]

theorem processLoop_remaining (files : List WatchedFile) (s : Summary) :
    (processLoop files s).remaining = s.remaining ++
      (files.filter (fun f => !(f.uploadOk && f.deleteOk))).map WatchedFile.name := by
  induction files generalizing s with
  | nil => simp [processLoop]
  | cons f rest ih =>
      rw [processLoop]
      cases hu : f.uploadOk
      · simp [ih, List.filter_cons, hu]
      · cases hd : f.deleteOk <;> simp [ih, List.filter_cons, hu, hd]

theorem runTraceFrom_deleteCall : ∀ (files : List WatchedFile) (s i : Nat),
    UploadEvent.deleteCall i ∈ runTraceFrom files s →
    (∃ j f, files[j]? = some f ∧ s + j = i ∧ f.uploadOk = true) ∧
    UploadEvent.uploadSuccess i ∈ runTraceFrom files s := by
  intro files
  induction files with
  | nil =>
      intro s i h
      simp [runTraceFrom] at h
  | cons f rest ih =>
      intro s i h
      rw [runTraceFrom] at h
      rcases List.mem_append.mp h with hhead | htail
      · cases hu : f.uploadOk
        · rw [hu] at hhead
          simp at hhead
        · rw [hu] at hhead
          have hi : i = s := by
            cases hd : f.deleteOk <;> rw [hd] at hhead <;> simpa using hhead
          subst hi
          refine ⟨⟨0, f, by simp, by omega, hu⟩, ?_⟩
          rw [runTraceFrom, hu]
          exact List.mem_append.mpr (Or.inl (by simp))
      · obtain ⟨⟨j, g, hj, hsum, hgu⟩, hmem⟩ := ih (s + 1) i htail
        refine ⟨⟨j + 1, g, by simpa using hj, by omega, hgu⟩, ?_⟩
        rw [runTraceFrom]
        exact List.mem_append.mpr (Or.inr hmem)

set_option linter.unnecessarySimpa false in
theorem runTraceFrom_deleteSuccess_call : ∀ (files : List WatchedFile) (s i : Nat),
    UploadEvent.deleteSuccess i ∈ runTraceFrom files s →
    UploadEvent.deleteCall i ∈ runTraceFrom files s := by
  intro files
  induction files with
  | nil =>
      intro s i h
      simp [runTraceFrom] at h
  | cons f rest ih =>
      intro s i h
      rw [runTraceFrom] at h
      rw [runTraceFrom]
      rcases List.mem_append.mp h with hhead | htail
      · cases hu : f.uploadOk
        · rw [hu] at hhead
          simp at hhead
        · rw [hu] at hhead
          have hi : i = s := by
            cases hd : f.deleteOk <;> rw [hd] at hhead <;> simpa using hhead
          subst hi
          refine List.mem_append.mpr (Or.inl ?_)
          simp
      · exact List.mem_append.mpr (Or.inr (ih (s + 1) i htail))

/-- C8: each file is processed independently — for every folder content
the summary counts every upload success and every upload failure (so a
failure never aborts the remaining files), and in the spec's 2-file
scenario (one success, one failure) the summary is uploaded=1, failed=1
with the failed file still on disk and the succeeded one removed. -/
theorem independent_processing :
    (∀ files : List WatchedFile,
      (process_files files).uploaded = files.countP (fun f => f.uploadOk) ∧
      (process_files files).failed = files.countP (fun f => !f.uploadOk) ∧
      (process_files files).remaining =
        (files.filter (fun f => !(f.uploadOk && f.deleteOk))).map WatchedFile.name) ∧
    process_files [⟨0, true, true⟩, ⟨1, false, true⟩] = ⟨1, 1, [1]⟩ := by
  refine ⟨fun files => ⟨?_, ?_, ?_⟩, by decide⟩
  · rw [process_files, processLoop_uploaded]
    simp
  · rw [process_files, processLoop_failed]
    simp
  · rw [process_files, processLoop_remaining]
    rfl

/-- C9: a file whose upload succeeds but whose local deletion fails is
still counted as uploaded (not failed), and its local copy stays on
disk, without affecting the other files' outcome. -/
theorem upload_ok_delete_fail_still_uploaded (pre post : List WatchedFile)
    (f : WatchedFile) (hu : f.uploadOk = true) (hd : f.deleteOk = false) :
    (process_files (pre ++ f :: post)).uploaded =
      (process_files (pre ++ post)).uploaded + 1 ∧
    (process_files (pre ++ f :: post)).failed =
      (process_files (pre ++ post)).failed ∧
    f.name ∈ (process_files (pre ++ f :: post)).remaining := by
  refine ⟨?_, ?_, ?_⟩
  · rw [process_files, process_files, processLoop_uploaded, processLoop_uploaded]
    simp [List.countP_append, List.countP_cons, hu]
    omega
  · rw [process_files, process_files, processLoop_failed, processLoop_failed]
    simp [List.countP_append, List.countP_cons, hu]
  · rw [process_files, processLoop_remaining]
    refine List.mem_append.mpr (Or.inr (List.mem_map_of_mem _ ?_))
    refine List.mem_filter.mpr ⟨by simp, ?_⟩
    simp [hu, hd]

theorem upload_ok_delete_fail_still_uploaded_witness :
    (process_files [(⟨5, true, false⟩ : WatchedFile)]).uploaded =
      (process_files []).uploaded + 1 ∧
    (process_files [(⟨5, true, false⟩ : WatchedFile)]).failed =
      (process_files []).failed ∧
    (5 : Nat) ∈ (process_files [(⟨5, true, false⟩ : WatchedFile)]).remaining :=
  upload_ok_delete_fail_still_uploaded [] [] ⟨5, true, false⟩ rfl rfl

/-- C10: temporal safety of the loop — a delete is called (and so a file
can be deleted) only when the upload of that same file was confirmed
successful first; no run deletes a file whose upload failed. -/
theorem delete_only_after_upload_success (files : List WatchedFile) (i : Nat)
    (h : UploadEvent.deleteCall i ∈ runTrace files ∨
      UploadEvent.deleteSuccess i ∈ runTrace files) :
    (∃ f, files[i]? = some f ∧ f.uploadOk = true) ∧
    UploadEvent.uploadSuccess i ∈ runTrace files := by
  have hcall : UploadEvent.deleteCall i ∈ runTrace files := by
    rcases h with h | h
    · exact h
    · exact runTraceFrom_deleteSuccess_call files 0 i h
  obtain ⟨⟨j, f, hj, hsum, hfu⟩, hmem⟩ := runTraceFrom_deleteCall files 0 i hcall
  have hji : j = i := by omega
  subst hji
  exact ⟨⟨f, hj, hfu⟩, hmem⟩

theorem delete_only_after_upload_success_witness :
    ([(⟨7, true, false⟩ : WatchedFile)][0]? = some ⟨7, true, false⟩ ∧
      (⟨7, true, false⟩ : WatchedFile).uploadOk = true) ∧
    UploadEvent.uploadSuccess 0 ∈ runTrace [(⟨7, true, false⟩ : WatchedFile)] := by
  have h := delete_only_after_upload_success [⟨7, true, false⟩] 0 (Or.inl (by decide))
  exact ⟨⟨by decide, rfl⟩, h.2⟩

end ScheduleHQ
